import Mathlib

/-!
Verification development for the SPOF (single point of failure) dependency
scoring engine: a shallow embedding of the repository's identity
normalization, aggregation and scoring code, together with theorems about
the behaviour the documentation ascribes to it.

Embedding conventions:
* Python `int` values are modelled as `ℤ`; exact rational arithmetic (`ℚ`)
  stands in for Python float arithmetic where no transcendental function is
  involved, and `ℝ` (with `Real.logb`) where `math.log10` is involved.
* A Python `dict` argument that the code only tests for truthiness and reads
  with `.get` is modelled as `Option` of a structure: `none` stands for both
  `None` and the falsy empty dict, and absent keys are represented by the
  `.get` default values.
* Python `round(x, 2)` rounds to the nearest hundredth with ties to even
  (banker's rounding); `round2` below is the exact-arithmetic counterpart.
* The `datetime.fromisoformat` parse of a timestamp string followed by the
  subtraction from `datetime.now()` is external-library behaviour; a
  timestamp field is represented by its parse outcome `TsField`: `absent`
  (the key is missing, `None`, or the falsy empty string), `malformed s`
  (a non-empty string `s` on which the parse raises), or `parsed d`
  (a parseable timestamp lying `d` days in the past).
-/

/-! ## Aggregator data model (`sbom_generator.py`) -/

/-- A software dependency occurrence, `sbom_generator.Dependency`. -/
structure Dependency where
  name : String
  version : String
  ecosystem : String
  purl : Option String
  is_direct : Bool
deriving DecidableEq, Repr

/-- Character-wise lower casing; `str.lower()` applied to a name. -/
def strLower (s : String) : String :=
  String.mk (s.data.map Char.toLower)

/-- Replacing every underscore by a dash; `str.replace("_", "-")` for the
single-character pattern `"_"` is exactly a character-wise map. -/
def dashChar (c : Char) : Char :=
  if c = '_' then '-' else c

/-- `SBOMGenerator.normalize_package_name`: pypi names are lower-cased with
`_` replaced by `-`; maven and npm names pass through; any other ecosystem is
lower-cased. Dispatch lower-cases the ecosystem tag first. -/
def normalize_package_name (dep : Dependency) : String :=
  let ecosystem := strLower dep.ecosystem
  if ecosystem = "pypi" then String.mk ((strLower dep.name).data.map dashChar)
  else if ecosystem = "maven" then dep.name
  else if ecosystem = "npm" then dep.name
  else strLower dep.name

/-- The aggregation key `f"{dep.ecosystem}:{normalized_name}"`. -/
def keyOf (dep : Dependency) : String :=
  dep.ecosystem ++ ":" ++ normalize_package_name dep

/-- One aggregated record of `aggregate_dependencies`. The Python `versions`
set is modelled as a `Finset`; the post-loop `usage_count = len(repos_using)`
field is the derived projection `usageCount` below. -/
structure AggEntry where
  name : String
  normalized_name : String
  ecosystem : String
  versions : Finset String
  repos_using : List String
  purl : Option String
deriving DecidableEq

/-- Derived `usage_count` field: `len(aggregated[key]['repos_using'])`. -/
def AggEntry.usageCount (e : AggEntry) : Nat :=
  e.repos_using.length

/-- The record created on first sight of a key (before the version/repo adds
that immediately follow it). -/
def blankEntry (dep : Dependency) : AggEntry :=
  { name := dep.name
    normalized_name := normalize_package_name dep
    ecosystem := dep.ecosystem
    versions := ∅
    repos_using := []
    purl := dep.purl }

/-- The two unconditional updates performed for every occurrence:
`versions.add(dep.version)` and the duplicate-free append of `repo_name` to
`repos_using`. -/
def updEntry (repo : String) (dep : Dependency) (e : AggEntry) : AggEntry :=
  { e with
    versions := insert dep.version e.versions
    repos_using :=
      if e.repos_using.elem repo then e.repos_using else e.repos_using ++ [repo] }

/-- Processing of a single occurrence inside the nested loops of
`aggregate_dependencies`: create the blank record if the key is new, then add
the version and the repository. The Python dict is modelled as an
association list in insertion order. -/
def addOcc (acc : List (String × AggEntry)) (occ : String × Dependency) :
    List (String × AggEntry) :=
  let key := keyOf occ.2
  if acc.any (fun p => p.1 = key) then
    acc.map (fun p => if p.1 = key then (p.1, updEntry occ.1 occ.2 p.2) else p)
  else
    acc ++ [(key, updEntry occ.1 occ.2 (blankEntry occ.2))]

/-- The occurrences of the input in processing order: for each repository in
order, its dependencies in order, labelled with the repository name. -/
def occurrencesOf (input : List (String × List Dependency)) :
    List (String × Dependency) :=
  (input.map (fun p => p.2.map (fun d => (p.1, d)))).flatten

/-- `SBOMGenerator.aggregate_dependencies`: the nested loops over the
repositories of the input mapping and the dependencies of each repository,
folding every occurrence into the association-list model of the
`aggregated` dict. -/
def aggregate_dependencies (input : List (String × List Dependency)) :
    List (String × AggEntry) :=
  input.foldl (fun acc p => p.2.foldl (fun a d => addOcc a (p.1, d)) acc) []

/-- Lookup of a key in the aggregated mapping. -/
def lookupAgg (key : String) (l : List (String × AggEntry)) : Option AggEntry :=
  (l.find? (fun p => p.1 = key)).map Prod.snd

/-! ## Scorer data model (`scorer.py`) -/

/-- The outcome of fetching and parsing one timestamp field (see the header
comment): the field is absent/falsy, a malformed string, or parses to a
timestamp `daysAgo` days in the past. -/
inductive TsField where
  | absent : TsField
  | malformed (s : String) : TsField
  | parsed (daysAgo : ℤ) : TsField
deriving DecidableEq, Repr

/-- Whether the field contributes a component to the activity score. -/
def TsField.isParsed : TsField → Bool
  | .parsed _ => true
  | _ => false

/-- The GitHub metrics dict produced by `github_client.get_repo_metrics`,
restricted to the keys the scorer reads (missing keys are represented by the
`.get` defaults `0` / `False` / absent). -/
structure GithubMetrics where
  stars : ℤ
  contributors : ℤ
  open_issues : ℤ
  has_org_backing : Bool
  last_commit_date : TsField
  last_release_date : TsField
deriving DecidableEq, Repr

/-- The deps.dev metrics dict produced by `depsdev_client.get_package_metrics`,
restricted to the keys the scorer reads. -/
structure DepsdevMetrics where
  data_available : Bool
  dependent_count : ℤ
  advisory_count : ℤ
deriving DecidableEq, Repr

/-- The aggregated dependency info consumed by `score_dependency`, restricted
to the keys it reads (`name`, `ecosystem`, `usage_count`). -/
structure DepInfo where
  name : String
  ecosystem : String
  usage_count : ℤ
deriving DecidableEq, Repr

/-- The five configurable weights of `SPOFScorer.__init__`. -/
structure Weights where
  internal_criticality : ℚ
  ecosystem_popularity : ℚ
  maintainer_risk : ℚ
  security_health : ℚ
  upstream_activity : ℚ
deriving DecidableEq, Repr

/-- `sum(self.weights.values())`. -/
def Weights.total (w : Weights) : ℚ :=
  w.internal_criticality + w.ecosystem_popularity + w.maintainer_risk +
    w.security_health + w.upstream_activity

/-- The acceptance condition of `SPOFScorer._validate_weights`:
`0.99 <= total <= 1.01`. -/
def validWeights (w : Weights) : Prop :=
  99 / 100 ≤ w.total ∧ w.total ≤ 101 / 100

instance (w : Weights) : Decidable (validWeights w) := by
  unfold validWeights; infer_instance

/-- The scorer object; it only carries the validated weights. -/
structure SPOFScorer where
  weights : Weights

/-- `SPOFScorer.__init__`: validation happens at construction; a weight sum
outside the tolerance band raises, so no scorer object is produced. -/
def mkScorer (w : Weights) : Option SPOFScorer :=
  if validWeights w then some ⟨w⟩ else none

/-- Round-half-to-even to an integer (Python's `round` tie behaviour),
in exact arithmetic. -/
def rhe {α : Type} [LinearOrderedField α] [FloorRing α] (x : α) : ℤ :=
  if Int.fract x < 1 / 2 then ⌊x⌋
  else if 1 / 2 < Int.fract x then ⌊x⌋ + 1
  else if Even ⌊x⌋ then ⌊x⌋ else ⌊x⌋ + 1

/-- Python `round(x, 2)` in exact arithmetic. -/
def round2 {α : Type} [LinearOrderedField α] [FloorRing α] (x : α) : α :=
  (rhe (x * 100) : α) / 100

/-- `SPOFScorer._calc_internal_criticality`. -/
def calc_internal_criticality (dep_info : DepInfo) (total_repos : ℤ) : ℚ :=
  if total_repos = 0 then 0
  else min 100 ((dep_info.usage_count : ℚ) / (total_repos : ℚ) * 100)

/-- The `stars` value read in `_calc_ecosystem_popularity`: `0` when the
github dict is falsy, else `github_metrics.get('stars', 0)`. -/
def starsOf (g : Option GithubMetrics) : ℤ :=
  (g.map GithubMetrics.stars).getD 0

/-- The GitHub-stars component: `stars_score` stays `0` unless `stars > 0`,
in which case it is `min(100, (math.log10(stars) / 4) * 100)`. -/
noncomputable def starsScoreOf (g : Option GithubMetrics) : ℝ :=
  if 0 < starsOf g then min 100 (Real.logb 10 (starsOf g : ℝ) / 4 * 100) else 0

/-- The deps.dev dependents component: `0` unless the metrics are available
and `dependent_count > 0`, in which case it is log-scaled the same way. -/
noncomputable def dependentsScoreOf (d : Option DepsdevMetrics) : ℝ :=
  match d with
  | none => 0
  | some m =>
      if m.data_available ∧ 0 < m.dependent_count then
        min 100 (Real.logb 10 (m.dependent_count : ℝ) / 4 * 100)
      else 0

/-- `SPOFScorer._calc_ecosystem_popularity`: early-out `0` when both dicts
are falsy, then combine the two components, weighting them equally when both
are positive and otherwise using the stars component if it is positive, else
the dependents component. -/
noncomputable def calc_ecosystem_popularity
    (g : Option GithubMetrics) (d : Option DepsdevMetrics) : ℝ :=
  if g = none ∧ d = none then 0
  else
    let stars_score := starsScoreOf g
    let dependents_score := dependentsScoreOf d
    let score :=
      if 0 < stars_score ∧ 0 < dependents_score then
        stars_score * (1 / 2) + dependents_score * (1 / 2)
      else if 0 < stars_score then stars_score
      else dependents_score
    min 100 score

/-- `SPOFScorer._calc_maintainer_risk`: step function on the contributor
count, scaled by `0.7` under organizational backing; `50` without data. -/
def calc_maintainer_risk (g : Option GithubMetrics) : ℚ :=
  match g with
  | none => 50
  | some m =>
      let contributor_risk : ℚ :=
        if 20 ≤ m.contributors then 20
        else if 10 ≤ m.contributors then 30
        else if 5 ≤ m.contributors then 50
        else if 2 ≤ m.contributors then 70
        else 90
      let org_factor : ℚ := if m.has_org_backing then 7 / 10 else 1
      min 100 (contributor_risk * org_factor)

/-- `SPOFScorer._calc_security_health`: start at `100`, deduct
`min(60, advisory_count * 15)` when deps.dev data is available and
`min(20, open_issues * 0.05 * 2)` when GitHub data is present, then clamp
below at `0`. -/
def calc_security_health
    (g : Option GithubMetrics) (d : Option DepsdevMetrics) : ℚ :=
  let score : ℚ := 100
  let score :=
    match d with
    | some m => if m.data_available then score - min 60 ((m.advisory_count : ℚ) * 15) else score
    | none => score
  let score :=
    match g with
    | some m => score - min 20 ((m.open_issues : ℚ) * (5 / 100) * 2)
    | none => score
  max 0 score

/-- The commit-recency curve of `_calc_upstream_activity`. -/
def commitRecencyScore (days : ℤ) : ℚ :=
  if days < 30 then 100
  else if days < 90 then 66
  else if days < 180 then 33
  else max 0 (100 - (days : ℚ) / 365 * 100)

/-- The release-recency curve of `_calc_upstream_activity`. -/
def releaseRecencyScore (days : ℤ) : ℚ :=
  if days < 90 then 100
  else if days < 180 then 66
  else if days < 365 then 33
  else max 0 (100 - (days : ℚ) / 730 * 100)

/-- `SPOFScorer._calc_upstream_activity`: `0` without GitHub data; otherwise
average the recency scores of the parseable timestamps (a parse failure is
caught and the component skipped), with fixed default `50` when no component
is available. -/
def calc_upstream_activity (g : Option GithubMetrics) : ℚ :=
  match g with
  | none => 0
  | some m =>
      let commit : Option ℚ :=
        match m.last_commit_date with
        | .parsed d => some (commitRecencyScore d)
        | _ => none
      let release : Option ℚ :=
        match m.last_release_date with
        | .parsed d => some (releaseRecencyScore d)
        | _ => none
      match commit, release with
      | none, none => 50
      | some c, none => c
      | none, some r => r
      | some c, some r => (c + r) / 2

/-- Whether the deps.dev bundle counts as an available source:
`depsdev_metrics and depsdev_metrics.get('data_available')`. -/
def depsdevAvailable (d : Option DepsdevMetrics) : Bool :=
  match d with
  | some m => m.data_available
  | none => false

/-- `SPOFScorer._calc_confidence`: available sources over `total_sources = 2`. -/
def calc_confidence (g : Option GithubMetrics) (d : Option DepsdevMetrics) : ℚ :=
  (((if g.isSome then 1 else 0) + (if depsdevAvailable d then 1 else 0) : ℚ)) / 2

/-- `SPOFScorer._generate_recommendation`: the fixed decision table keyed on
the composite score with tie-break signals. -/
noncomputable def generate_recommendation
    (spof_score : ℝ) (internal_crit : ℚ) (ecosystem_pop : ℝ)
    (maintainer_risk : ℚ) : String :=
  if 80 ≤ spof_score then
    if 70 < maintainer_risk then
      "CRITICAL - High internal usage with maintenance concerns. Consider contributing or sponsoring."
    else "CRITICAL - Monitor closely, very high impact to organization."
  else if 60 ≤ spof_score then
    if 70 < internal_crit then
      "HIGH - Significant internal dependency. Monitor for updates and security issues."
    else "HIGH - Consider investment to ensure long-term sustainability."
  else if 40 ≤ spof_score then "MEDIUM - Moderate impact. Monitor periodically."
  else if 20 ≤ spof_score then "LOW - Limited impact. Standard monitoring sufficient."
  else if 80 < ecosystem_pop then "MINIMAL - Healthy, well-maintained project."
  else "MINIMAL - Low impact to organization."

/-- The rounded per-metric map stored on the scored record. -/
structure ScoreMetrics where
  internal_criticality : ℚ
  ecosystem_popularity : ℝ
  maintainer_risk : ℚ
  security_health : ℚ
  upstream_activity : ℚ

/-- The raw inputs retained on the record for audit. -/
structure RawData where
  github : Option GithubMetrics
  depsdev : Option DepsdevMetrics
  usage : DepInfo

/-- `scorer.ScoredDependency`. -/
structure ScoredDependency where
  name : String
  ecosystem : String
  spof_score : ℝ
  confidence : ℚ
  metrics : ScoreMetrics
  raw_data : RawData
  recommendation : String

/-- `SPOFScorer.score_dependency`: the five sub-scores, the weighted
composite, the confidence, the recommendation, and the rounded record. -/
noncomputable def score_dependency (scorer : SPOFScorer) (dep_info : DepInfo)
    (g : Option GithubMetrics) (d : Option DepsdevMetrics)
    (total_repos : ℤ) : ScoredDependency :=
  let w := scorer.weights
  let internal_crit := calc_internal_criticality dep_info total_repos
  let ecosystem_pop := calc_ecosystem_popularity g d
  let maintainer_risk := calc_maintainer_risk g
  let security_health := calc_security_health g d
  let upstream_activity := calc_upstream_activity g
  let spof_score : ℝ :=
    (w.internal_criticality : ℝ) * (internal_crit : ℝ) +
    (w.ecosystem_popularity : ℝ) * ecosystem_pop +
    (w.maintainer_risk : ℝ) * (maintainer_risk : ℝ) +
    (w.security_health : ℝ) * (security_health : ℝ) +
    (w.upstream_activity : ℝ) * (upstream_activity : ℝ)
  let confidence := calc_confidence g d
  { name := dep_info.name
    ecosystem := dep_info.ecosystem
    spof_score := round2 spof_score
    confidence := round2 confidence
    metrics :=
      { internal_criticality := round2 internal_crit
        ecosystem_popularity := round2 ecosystem_pop
        maintainer_risk := round2 maintainer_risk
        security_health := round2 security_health
        upstream_activity := round2 upstream_activity }
    raw_data := { github := g, depsdev := d, usage := dep_info }
    recommendation :=
      generate_recommendation spof_score internal_crit ecosystem_pop
        maintainer_risk }

/-! ## Population normalizer (`main.py` line 294)

`scorer.normalize_dependency_scores` is called from `main.py` but its
definition is not part of the available sources; the specification fixes
only its contract (monotonic, range-preserving rescaling applied once after
all composite scores are computed) and leaves the curve an implementation
choice. -/

/-- The rescaling applied to one score given the population minimum and
maximum. Modelled from the spec: the population normalizer is unspecified in
the available material beyond its contract, so the documented min–max
stretch choice is used; a degenerate single-value population is clamped to
`[0, 100]`. -/
noncomputable def stretchScore (lo hi x : ℝ) : ℝ :=
  if hi ≤ lo then min 100 (max 0 x) else (x - lo) / (hi - lo) * 100

/-- Modelled from the spec: `normalize_dependency_scores` (absent from the
available sources) rescales the whole population of composite scores by a
min–max stretch, replacing each record's `spof_score` and leaving every
other field unchanged. -/
noncomputable def normalize_dependency_scores (deps : List ScoredDependency) :
    List ScoredDependency :=
  match deps with
  | [] => []
  | d0 :: rest =>
      let lo := (rest.map (fun d => d.spof_score)).foldl min d0.spof_score
      let hi := (rest.map (fun d => d.spof_score)).foldl max d0.spof_score
      (d0 :: rest).map (fun d => { d with spof_score := stretchScore lo hi d.spof_score })

/-! ## General lemmas about the numeric helpers -/

theorem logb_ten_pow (k : ℕ) : Real.logb 10 ((10:ℝ)^k) = k := by
  rw [Real.logb_pow, Real.logb_self_eq_one (by norm_num)]; ring

theorem logb_ten_10000 : Real.logb 10 (10000:ℝ) = 4 := by
  rw [show (10000:ℝ) = (10:ℝ)^(4:ℕ) by norm_num, logb_ten_pow]; norm_num

theorem logb_ten_1000 : Real.logb 10 (1000:ℝ) = 3 := by
  rw [show (1000:ℝ) = (10:ℝ)^(3:ℕ) by norm_num, logb_ten_pow]; norm_num

theorem rhe_intCast {α : Type} [LinearOrderedField α] [FloorRing α] (n : ℤ) :
    rhe ((n : α)) = n := by
  unfold rhe
  rw [Int.fract_intCast]
  norm_num

theorem rhe_int_add_half {α : Type} [LinearOrderedField α] [FloorRing α] (n : ℤ) :
    rhe ((n : α) + 1/2) = if Even n then n else n + 1 := by
  unfold rhe
  have hf : Int.fract ((n : α) + 1/2) = 1/2 := by
    rw [add_comm, Int.fract_add_int, Int.fract_eq_self.2 (by norm_num)]
  have hfl : ⌊(n : α) + 1/2⌋ = n := by
    rw [add_comm, Int.floor_add_int]
    norm_num
  rw [hf, hfl]
  norm_num

theorem round2_intCast {α : Type} [LinearOrderedField α] [FloorRing α] (n : ℤ) :
    round2 ((n : α)) = n := by
  unfold round2
  rw [show (n:α) * 100 = ((n * 100 : ℤ) : α) by push_cast; ring, rhe_intCast]
  push_cast
  ring

theorem rhe_nonneg {α : Type} [LinearOrderedField α] [FloorRing α] {x : α}
    (h : 0 ≤ x) : 0 ≤ rhe x := by
  have h0 : 0 ≤ ⌊x⌋ := Int.floor_nonneg.mpr h
  unfold rhe
  split_ifs <;> omega

theorem rhe_le_intCast {α : Type} [LinearOrderedField α] [FloorRing α] {x : α}
    {n : ℤ} (h : x ≤ (n : α)) : rhe x ≤ n := by
  by_cases hfx : ⌊x⌋ = n
  · have hx : x = (n : α) := by
      have h1 : (n : α) ≤ x := by
        calc (n : α) = ((⌊x⌋ : ℤ) : α) := by rw [hfx]
        _ ≤ x := Int.floor_le x
      exact le_antisymm h h1
    rw [hx, rhe_intCast]
  · have h1 : ⌊x⌋ < n := by
      have h2 : ⌊x⌋ ≤ n := by
        have := Int.floor_le_floor h
        rwa [Int.floor_intCast] at this
      omega
    unfold rhe
    split_ifs <;> omega

theorem round2_nonneg {α : Type} [LinearOrderedField α] [FloorRing α] {x : α}
    (h : 0 ≤ x) : 0 ≤ round2 x := by
  unfold round2
  have h1 : (0:ℤ) ≤ rhe (x * 100) := rhe_nonneg (by positivity)
  have h2 : (0:α) ≤ (rhe (x * 100) : α) := by exact_mod_cast h1
  positivity

theorem round2_le_100 {α : Type} [LinearOrderedField α] [FloorRing α] {x : α}
    (h : x ≤ 100) : round2 x ≤ 100 := by
  unfold round2
  have h1 : x * 100 ≤ ((10000 : ℤ) : α) := by push_cast; linarith
  have h2 : rhe (x * 100) ≤ (10000 : ℤ) := rhe_le_intCast h1
  have h3 : (rhe (x * 100) : α) ≤ 10000 := by exact_mod_cast h2
  linarith

/-! ## Range lemmas for the five sub-scores -/

theorem calc_internal_criticality_range (dep : DepInfo) (t : ℤ)
    (hu : 0 ≤ dep.usage_count) (ht : 0 ≤ t) :
    0 ≤ calc_internal_criticality dep t ∧ calc_internal_criticality dep t ≤ 100 := by
  unfold calc_internal_criticality
  split_ifs with h
  · norm_num
  · have ht' : (0:ℚ) < (t : ℚ) := by
      have : (0:ℤ) < t := lt_of_le_of_ne ht (fun hh => h hh.symm)
      exact_mod_cast this
    have hu' : (0:ℚ) ≤ (dep.usage_count : ℚ) := by exact_mod_cast hu
    constructor
    · exact le_min (by norm_num) (by positivity)
    · exact min_le_left _ _

theorem starsScoreOf_nonneg (g : Option GithubMetrics) : 0 ≤ starsScoreOf g := by
  unfold starsScoreOf
  split_ifs with h
  · refine le_min (by norm_num) ?_
    have h1 : (1:ℝ) ≤ (starsOf g : ℝ) := by exact_mod_cast h
    have h2 : 0 ≤ Real.logb 10 (starsOf g : ℝ) := Real.logb_nonneg (by norm_num) h1
    positivity
  · exact le_refl 0

theorem starsScoreOf_le_100 (g : Option GithubMetrics) : starsScoreOf g ≤ 100 := by
  unfold starsScoreOf
  split_ifs with h
  · exact min_le_left _ _
  · norm_num

theorem dependentsScoreOf_nonneg (d : Option DepsdevMetrics) : 0 ≤ dependentsScoreOf d := by
  rcases d with _ | m
  · simp [dependentsScoreOf]
  · simp only [dependentsScoreOf]
    split_ifs with h
    · refine le_min (by norm_num) ?_
      have h1 : (1:ℝ) ≤ (m.dependent_count : ℝ) := by exact_mod_cast h.2
      have h2 : 0 ≤ Real.logb 10 (m.dependent_count : ℝ) := Real.logb_nonneg (by norm_num) h1
      positivity
    · norm_num

theorem dependentsScoreOf_le_100 (d : Option DepsdevMetrics) : dependentsScoreOf d ≤ 100 := by
  rcases d with _ | m
  · simp [dependentsScoreOf]
  · simp only [dependentsScoreOf]
    split_ifs with h
    · exact min_le_left _ _
    · norm_num

theorem calc_ecosystem_popularity_range (g : Option GithubMetrics)
    (d : Option DepsdevMetrics) :
    0 ≤ calc_ecosystem_popularity g d ∧ calc_ecosystem_popularity g d ≤ 100 := by
  unfold calc_ecosystem_popularity
  split_ifs with h
  · norm_num
  · have hs0 := starsScoreOf_nonneg g
    have hd0 := dependentsScoreOf_nonneg d
    constructor
    · refine le_min (by norm_num) ?_
      split_ifs with h1 h2 <;> linarith
    · exact min_le_left _ _

theorem calc_maintainer_risk_range (g : Option GithubMetrics) :
    0 ≤ calc_maintainer_risk g ∧ calc_maintainer_risk g ≤ 100 := by
  rcases g with _ | m
  · norm_num [calc_maintainer_risk]
  · simp only [calc_maintainer_risk]
    constructor
    · refine le_min (by norm_num) ?_
      have h1 : (0:ℚ) ≤ (if 20 ≤ m.contributors then (20:ℚ)
          else if 10 ≤ m.contributors then 30 else if 5 ≤ m.contributors then 50
          else if 2 ≤ m.contributors then 70 else 90) := by
        split_ifs <;> norm_num
      have h2 : (0:ℚ) ≤ (if m.has_org_backing then (7:ℚ)/10 else 1) := by
        split_ifs <;> norm_num
      exact mul_nonneg h1 h2
    · exact min_le_left _ _

theorem calc_security_health_range (g : Option GithubMetrics) (d : Option DepsdevMetrics)
    (hoi : ∀ m, g = some m → 0 ≤ m.open_issues)
    (hadv : ∀ m, d = some m → 0 ≤ m.advisory_count) :
    0 ≤ calc_security_health g d ∧ calc_security_health g d ≤ 100 := by
  refine ⟨le_max_left _ _, ?_⟩
  rcases g with _ | m' <;> rcases d with _ | m <;> simp only [calc_security_health]
  · norm_num
  · have h1 : (0:ℚ) ≤ (m.advisory_count : ℚ) := by exact_mod_cast hadv m rfl
    split_ifs with h
    · have : (0:ℚ) ≤ min 60 ((m.advisory_count : ℚ) * 15) := le_min (by norm_num) (by positivity)
      simp only [max_le_iff]
      constructor <;> linarith
    · norm_num
  · have h1 : (0:ℚ) ≤ (m'.open_issues : ℚ) := by exact_mod_cast hoi m' rfl
    have : (0:ℚ) ≤ min 20 ((m'.open_issues : ℚ) * (5/100) * 2) :=
      le_min (by norm_num) (by positivity)
    simp only [max_le_iff]
    constructor <;> linarith
  · have h1 : (0:ℚ) ≤ (m.advisory_count : ℚ) := by exact_mod_cast hadv m rfl
    have h2 : (0:ℚ) ≤ (m'.open_issues : ℚ) := by exact_mod_cast hoi m' rfl
    have h3 : (0:ℚ) ≤ min 20 ((m'.open_issues : ℚ) * (5/100) * 2) :=
      le_min (by norm_num) (by positivity)
    split_ifs with h
    · have : (0:ℚ) ≤ min 60 ((m.advisory_count : ℚ) * 15) := le_min (by norm_num) (by positivity)
      simp only [max_le_iff]
      constructor <;> linarith
    · simp only [max_le_iff]
      constructor <;> linarith

theorem commitRecencyScore_range (days : ℤ) :
    0 ≤ commitRecencyScore days ∧ commitRecencyScore days ≤ 100 := by
  unfold commitRecencyScore
  split_ifs with h1 h2 h3
  · norm_num
  · norm_num
  · norm_num
  · refine ⟨le_max_left _ _, ?_⟩
    have hd : (180:ℚ) ≤ (days : ℚ) := by exact_mod_cast (by omega : (180:ℤ) ≤ days)
    refine max_le (by norm_num) ?_
    linarith

theorem releaseRecencyScore_range (days : ℤ) :
    0 ≤ releaseRecencyScore days ∧ releaseRecencyScore days ≤ 100 := by
  unfold releaseRecencyScore
  split_ifs with h1 h2 h3
  · norm_num
  · norm_num
  · norm_num
  · refine ⟨le_max_left _ _, ?_⟩
    have hd : (365:ℚ) ≤ (days : ℚ) := by exact_mod_cast (by omega : (365:ℤ) ≤ days)
    refine max_le (by norm_num) ?_
    linarith

theorem calc_upstream_activity_range (g : Option GithubMetrics) :
    0 ≤ calc_upstream_activity g ∧ calc_upstream_activity g ≤ 100 := by
  rcases g with _ | m
  · norm_num [calc_upstream_activity]
  · obtain ⟨st, co, oi, ob, lc, lr⟩ := m
    rcases lc with _ | s1 | d1 <;> rcases lr with _ | s2 | d2 <;>
        simp only [calc_upstream_activity]
    · norm_num
    · norm_num
    · have := releaseRecencyScore_range d2
      exact ⟨this.1, this.2⟩
    · norm_num
    · norm_num
    · have := releaseRecencyScore_range d2
      exact ⟨this.1, this.2⟩
    · have := commitRecencyScore_range d1
      exact ⟨this.1, this.2⟩
    · have := commitRecencyScore_range d1
      exact ⟨this.1, this.2⟩
    · have h1 := commitRecencyScore_range d1
      have h2 := releaseRecencyScore_range d2
      constructor <;> [linarith [h1.1, h2.1]; linarith [h1.2, h2.2]]

/-! ## Projection lemmas for `score_dependency` -/

theorem score_dependency_spof_eq (sc : SPOFScorer) (dep : DepInfo)
    (g : Option GithubMetrics) (d : Option DepsdevMetrics) (t : ℤ) :
    (score_dependency sc dep g d t).spof_score =
      round2 ((sc.weights.internal_criticality : ℝ) * (calc_internal_criticality dep t : ℝ) +
        (sc.weights.ecosystem_popularity : ℝ) * calc_ecosystem_popularity g d +
        (sc.weights.maintainer_risk : ℝ) * (calc_maintainer_risk g : ℝ) +
        (sc.weights.security_health : ℝ) * (calc_security_health g d : ℝ) +
        (sc.weights.upstream_activity : ℝ) * (calc_upstream_activity g : ℝ)) := rfl

theorem score_dependency_confidence_eq (sc : SPOFScorer) (dep : DepInfo)
    (g : Option GithubMetrics) (d : Option DepsdevMetrics) (t : ℤ) :
    (score_dependency sc dep g d t).confidence = round2 (calc_confidence g d) := rfl

theorem score_dependency_recommendation_eq (sc : SPOFScorer) (dep : DepInfo)
    (g : Option GithubMetrics) (d : Option DepsdevMetrics) (t : ℤ) :
    (score_dependency sc dep g d t).recommendation =
      generate_recommendation
        ((sc.weights.internal_criticality : ℝ) * (calc_internal_criticality dep t : ℝ) +
          (sc.weights.ecosystem_popularity : ℝ) * calc_ecosystem_popularity g d +
          (sc.weights.maintainer_risk : ℝ) * (calc_maintainer_risk g : ℝ) +
          (sc.weights.security_health : ℝ) * (calc_security_health g d : ℝ) +
          (sc.weights.upstream_activity : ℝ) * (calc_upstream_activity g : ℝ))
        (calc_internal_criticality dep t) (calc_ecosystem_popularity g d)
        (calc_maintainer_risk g) := rfl

/-! ## Evaluations of `round2` at the confidence values -/

theorem round2_zero : round2 ((0:ℚ)) = 0 := by
  rw [show ((0:ℚ)) = ((0:ℤ):ℚ) by norm_num, round2_intCast]

theorem round2_half : round2 ((1:ℚ)/2) = 1/2 := by
  unfold round2
  rw [show (1:ℚ)/2 * 100 = ((50:ℤ):ℚ) by norm_num, rhe_intCast]
  norm_num

theorem round2_one : round2 ((1:ℚ)) = 1 := by
  rw [show ((1:ℚ)) = ((1:ℤ):ℚ) by norm_num, round2_intCast]

/-! ## Claim theorems -/

/-- Claim C4: scorer construction (`SPOFScorer.__init__`) succeeds exactly
when the weight values sum to a value in `[0.99, 1.01]`; for sums strictly
below `0.99` or strictly above `1.01` validation raises, no scorer object is
produced, and hence no scoring can be performed. -/
theorem mkScorer_isSome_iff_weights_sum_in_band (w : Weights) :
    (mkScorer w).isSome = true ↔ (99/100 ≤ w.total ∧ w.total ≤ 101/100) := by
  unfold mkScorer
  split_ifs with h
  · simpa using h
  · simp only [Option.isSome_none, Bool.false_eq_true, false_iff]
    exact fun hc => h hc

/-- Claim C6: for every scored dependency the confidence equals the number of
available external source bundles (the github dict when truthy, the deps.dev
dict when truthy with its `data_available` flag set) divided by
`total_sources = 2`, and is therefore one of `0`, `0.5`, `1`. -/
theorem confidence_counts_bundles (sc : SPOFScorer) (dep : DepInfo)
    (g : Option GithubMetrics) (d : Option DepsdevMetrics) (t : ℤ) :
    (score_dependency sc dep g d t).confidence =
      (((if g.isSome then 1 else 0) + (if depsdevAvailable d then 1 else 0) : ℚ)) / 2 ∧
    ((score_dependency sc dep g d t).confidence = 0 ∨
      (score_dependency sc dep g d t).confidence = 1/2 ∨
      (score_dependency sc dep g d t).confidence = 1) := by
  have hval : calc_confidence g d = 0 ∨ calc_confidence g d = 1/2 ∨
      calc_confidence g d = 1 := by
    unfold calc_confidence
    rcases g with _ | m <;> cases hb : depsdevAvailable d <;> norm_num
  have hr : round2 (calc_confidence g d) = calc_confidence g d := by
    rcases hval with h | h | h <;> rw [h] <;>
      [exact round2_zero; exact round2_half; exact round2_one]
  constructor
  · rw [score_dependency_confidence_eq, hr]
    rfl
  · rw [score_dependency_confidence_eq, hr]
    exact hval

/-- Claim C10: the recency curves are not monotonically decreasing in age.
Commits aged 90–179 days score exactly 33 while commits aged 180–243 days
score `max 0 (100 - days/365*100) > 33`; releases aged 180–364 days score 33
while releases aged 365–488 days score `max 0 (100 - days/730*100) > 33`. -/
theorem recency_curves_not_monotone :
    (∃ a b : ℤ, a < b ∧ commitRecencyScore a < commitRecencyScore b) ∧
    (∀ d : ℤ, 90 ≤ d → d ≤ 179 → commitRecencyScore d = 33) ∧
    (∀ d : ℤ, 180 ≤ d → d ≤ 243 →
      commitRecencyScore d = max 0 (100 - (d:ℚ)/365*100) ∧ 33 < commitRecencyScore d) ∧
    (∃ a b : ℤ, a < b ∧ releaseRecencyScore a < releaseRecencyScore b) ∧
    (∀ d : ℤ, 180 ≤ d → d ≤ 364 → releaseRecencyScore d = 33) ∧
    (∀ d : ℤ, 365 ≤ d → d ≤ 488 →
      releaseRecencyScore d = max 0 (100 - (d:ℚ)/730*100) ∧ 33 < releaseRecencyScore d) := by
  have hc33 : ∀ d : ℤ, 90 ≤ d → d ≤ 179 → commitRecencyScore d = 33 := by
    intro d h1 h2
    unfold commitRecencyScore
    rw [if_neg (by omega), if_neg (by omega), if_pos (by omega)]
  have hcform : ∀ d : ℤ, 180 ≤ d → d ≤ 243 →
      commitRecencyScore d = max 0 (100 - (d:ℚ)/365*100) ∧ 33 < commitRecencyScore d := by
    intro d h1 h2
    have heq : commitRecencyScore d = max 0 (100 - (d:ℚ)/365*100) := by
      unfold commitRecencyScore
      rw [if_neg (by omega), if_neg (by omega), if_neg (by omega)]
    have hd1 : (180:ℚ) ≤ (d:ℚ) := by exact_mod_cast h1
    have hd2 : (d:ℚ) ≤ 243 := by exact_mod_cast h2
    have hgt : (33:ℚ) < 100 - (d:ℚ)/365*100 := by
      have h3 : (d:ℚ)/365*100 < 67 := by
        rw [div_mul_eq_mul_div, div_lt_iff₀ (by norm_num : (0:ℚ) < 365)]
        linarith
      linarith
    refine ⟨heq, ?_⟩
    rw [heq]
    calc (33:ℚ) < 100 - (d:ℚ)/365*100 := hgt
      _ ≤ max 0 (100 - (d:ℚ)/365*100) := le_max_right _ _
  have hr33 : ∀ d : ℤ, 180 ≤ d → d ≤ 364 → releaseRecencyScore d = 33 := by
    intro d h1 h2
    unfold releaseRecencyScore
    rw [if_neg (by omega), if_neg (by omega), if_pos (by omega)]
  have hrform : ∀ d : ℤ, 365 ≤ d → d ≤ 488 →
      releaseRecencyScore d = max 0 (100 - (d:ℚ)/730*100) ∧ 33 < releaseRecencyScore d := by
    intro d h1 h2
    have heq : releaseRecencyScore d = max 0 (100 - (d:ℚ)/730*100) := by
      unfold releaseRecencyScore
      rw [if_neg (by omega), if_neg (by omega), if_neg (by omega)]
    have hd1 : (365:ℚ) ≤ (d:ℚ) := by exact_mod_cast h1
    have hd2 : (d:ℚ) ≤ 488 := by exact_mod_cast h2
    have hgt : (33:ℚ) < 100 - (d:ℚ)/730*100 := by
      have h3 : (d:ℚ)/730*100 < 67 := by
        rw [div_mul_eq_mul_div, div_lt_iff₀ (by norm_num : (0:ℚ) < 730)]
        linarith
      linarith
    refine ⟨heq, ?_⟩
    rw [heq]
    calc (33:ℚ) < 100 - (d:ℚ)/730*100 := hgt
      _ ≤ max 0 (100 - (d:ℚ)/730*100) := le_max_right _ _
  refine ⟨⟨100, 200, by norm_num, ?_⟩, hc33, hcform, ⟨200, 400, by norm_num, ?_⟩, hr33, hrform⟩
  · rw [hc33 100 (by norm_num) (by norm_num)]
    exact (hcform 200 (by norm_num) (by norm_num)).2
  · rw [hr33 200 (by norm_num) (by norm_num)]
    exact (hrform 400 (by norm_num) (by norm_num)).2

/-- Witness for C10 at concrete ages: a commit aged 100 days scores 33 while
one aged 200 days scores more; a release aged 200 days scores 33 while one
aged 400 days scores more. -/
theorem recency_curves_not_monotone_witness :
    commitRecencyScore 100 = 33 ∧
    (commitRecencyScore 200 = max 0 (100 - (200:ℚ)/365*100) ∧ 33 < commitRecencyScore 200) ∧
    releaseRecencyScore 200 = 33 ∧
    (releaseRecencyScore 400 = max 0 (100 - (400:ℚ)/730*100) ∧ 33 < releaseRecencyScore 400) := by
  refine ⟨recency_curves_not_monotone.2.1 100 (by norm_num) (by norm_num),
    ?_, recency_curves_not_monotone.2.2.2.2.1 200 (by norm_num) (by norm_num), ?_⟩
  · have h := recency_curves_not_monotone.2.2.1 200 (by norm_num) (by norm_num)
    push_cast at h
    exact h
  · have h := recency_curves_not_monotone.2.2.2.2.2 400 (by norm_num) (by norm_num)
    push_cast at h
    exact h

/-- Claim C2 (amended): provided the accepted weight vector is componentwise
non-negative with total at most 1, the repository count and usage count are
non-negative, and the open-issue and advisory counts are non-negative, each
of the five sub-scores computed by `score_dependency` and the composite
`spof_score` it returns lie in `[0, 100]`. (As stated over every accepted
weight vector the claim is false: validation only checks the sum, so
negative components pass and push the composite outside the interval — see
the counterexample.) -/
theorem subscores_and_composite_in_range (w : Weights) (sc : SPOFScorer)
    (dep : DepInfo) (g : Option GithubMetrics) (d : Option DepsdevMetrics) (t : ℤ)
    (hcons : mkScorer w = some sc)
    (hw1 : 0 ≤ w.internal_criticality) (hw2 : 0 ≤ w.ecosystem_popularity)
    (hw3 : 0 ≤ w.maintainer_risk) (hw4 : 0 ≤ w.security_health)
    (hw5 : 0 ≤ w.upstream_activity) (hsum : w.total ≤ 1)
    (hu : 0 ≤ dep.usage_count) (ht : 0 ≤ t)
    (hoi : ∀ m, g = some m → 0 ≤ m.open_issues)
    (hadv : ∀ m, d = some m → 0 ≤ m.advisory_count) :
    (0 ≤ calc_internal_criticality dep t ∧ calc_internal_criticality dep t ≤ 100) ∧
    (0 ≤ calc_ecosystem_popularity g d ∧ calc_ecosystem_popularity g d ≤ 100) ∧
    (0 ≤ calc_maintainer_risk g ∧ calc_maintainer_risk g ≤ 100) ∧
    (0 ≤ calc_security_health g d ∧ calc_security_health g d ≤ 100) ∧
    (0 ≤ calc_upstream_activity g ∧ calc_upstream_activity g ≤ 100) ∧
    (0 ≤ (score_dependency sc dep g d t).spof_score ∧
      (score_dependency sc dep g d t).spof_score ≤ 100) := by
  have hw : sc.weights = w := by
    unfold mkScorer at hcons
    split_ifs at hcons with h
    exact (congrArg SPOFScorer.weights (Option.some.inj hcons)).symm
  have hic := calc_internal_criticality_range dep t hu ht
  have heco := calc_ecosystem_popularity_range g d
  have hmr := calc_maintainer_risk_range g
  have hsh := calc_security_health_range g d hoi hadv
  have hup := calc_upstream_activity_range g
  refine ⟨hic, heco, hmr, hsh, hup, ?_⟩
  rw [score_dependency_spof_eq, hw]
  have hic1 : (0:ℝ) ≤ (calc_internal_criticality dep t : ℝ) := by exact_mod_cast hic.1
  have hic2 : (calc_internal_criticality dep t : ℝ) ≤ 100 := by exact_mod_cast hic.2
  have hmr1 : (0:ℝ) ≤ (calc_maintainer_risk g : ℝ) := by exact_mod_cast hmr.1
  have hmr2 : (calc_maintainer_risk g : ℝ) ≤ 100 := by exact_mod_cast hmr.2
  have hsh1 : (0:ℝ) ≤ (calc_security_health g d : ℝ) := by exact_mod_cast hsh.1
  have hsh2 : (calc_security_health g d : ℝ) ≤ 100 := by exact_mod_cast hsh.2
  have hup1 : (0:ℝ) ≤ (calc_upstream_activity g : ℝ) := by exact_mod_cast hup.1
  have hup2 : (calc_upstream_activity g : ℝ) ≤ 100 := by exact_mod_cast hup.2
  have hw1' : (0:ℝ) ≤ (w.internal_criticality : ℝ) := by exact_mod_cast hw1
  have hw2' : (0:ℝ) ≤ (w.ecosystem_popularity : ℝ) := by exact_mod_cast hw2
  have hw3' : (0:ℝ) ≤ (w.maintainer_risk : ℝ) := by exact_mod_cast hw3
  have hw4' : (0:ℝ) ≤ (w.security_health : ℝ) := by exact_mod_cast hw4
  have hw5' : (0:ℝ) ≤ (w.upstream_activity : ℝ) := by exact_mod_cast hw5
  have hsum' : (w.internal_criticality : ℝ) + (w.ecosystem_popularity : ℝ) +
      (w.maintainer_risk : ℝ) + (w.security_health : ℝ) +
      (w.upstream_activity : ℝ) ≤ 1 := by
    have h0 := hsum
    unfold Weights.total at h0
    exact_mod_cast h0
  have hlow : 0 ≤ (w.internal_criticality : ℝ) * (calc_internal_criticality dep t : ℝ) +
      (w.ecosystem_popularity : ℝ) * calc_ecosystem_popularity g d +
      (w.maintainer_risk : ℝ) * (calc_maintainer_risk g : ℝ) +
      (w.security_health : ℝ) * (calc_security_health g d : ℝ) +
      (w.upstream_activity : ℝ) * (calc_upstream_activity g : ℝ) := by
    have t1 := mul_nonneg hw1' hic1
    have t2 := mul_nonneg hw2' heco.1
    have t3 := mul_nonneg hw3' hmr1
    have t4 := mul_nonneg hw4' hsh1
    have t5 := mul_nonneg hw5' hup1
    linarith
  have hhigh : (w.internal_criticality : ℝ) * (calc_internal_criticality dep t : ℝ) +
      (w.ecosystem_popularity : ℝ) * calc_ecosystem_popularity g d +
      (w.maintainer_risk : ℝ) * (calc_maintainer_risk g : ℝ) +
      (w.security_health : ℝ) * (calc_security_health g d : ℝ) +
      (w.upstream_activity : ℝ) * (calc_upstream_activity g : ℝ) ≤ 100 := by
    have t1 := mul_le_mul_of_nonneg_left hic2 hw1'
    have t2 := mul_le_mul_of_nonneg_left heco.2 hw2'
    have t3 := mul_le_mul_of_nonneg_left hmr2 hw3'
    have t4 := mul_le_mul_of_nonneg_left hsh2 hw4'
    have t5 := mul_le_mul_of_nonneg_left hup2 hw5'
    nlinarith [hsum', hw1', hw2', hw3', hw4', hw5']
  exact ⟨round2_nonneg hlow, round2_le_100 hhigh⟩

/-- Counterexample for C2 as stated: weight validation only checks the sum,
so the vector `(2, -1, 0, 0, 0)` is accepted at construction, yet with a
dependency used by every analysed repository and no external data the
returned composite score is 200, outside `[0, 100]`. -/
theorem accepted_weights_can_push_composite_outside_range :
    validWeights ⟨2, -1, 0, 0, 0⟩ ∧
    mkScorer ⟨2, -1, 0, 0, 0⟩ = some ⟨⟨2, -1, 0, 0, 0⟩⟩ ∧
    (score_dependency ⟨⟨2, -1, 0, 0, 0⟩⟩ ⟨"left-pad", "npm", 1⟩ none none 1).spof_score = 200 ∧
    ¬ ((score_dependency ⟨⟨2, -1, 0, 0, 0⟩⟩ ⟨"left-pad", "npm", 1⟩ none none 1).spof_score ≤ 100) := by
  have hvw : validWeights ⟨2, -1, 0, 0, 0⟩ := by
    constructor <;> norm_num [Weights.total]
  have hic : calc_internal_criticality ⟨"left-pad", "npm", 1⟩ 1 = 100 := by
    norm_num [calc_internal_criticality]
  have heco : calc_ecosystem_popularity none none = 0 := by
    rw [calc_ecosystem_popularity, if_pos ⟨rfl, rfl⟩]
  have hmr : calc_maintainer_risk none = 50 := rfl
  have hsh : calc_security_health none none = 100 := by
    norm_num [calc_security_health]
  have hup : calc_upstream_activity none = 0 := rfl
  have hspof : (score_dependency ⟨⟨2, -1, 0, 0, 0⟩⟩ ⟨"left-pad", "npm", 1⟩
      none none 1).spof_score = 200 := by
    rw [score_dependency_spof_eq]
    rw [hic, heco, hmr, hsh, hup]
    rw [show ((((2:ℚ)):ℝ) * ((100:ℚ):ℝ) + (((-1:ℚ)):ℝ) * 0 + (((0:ℚ)):ℝ) * ((50:ℚ):ℝ) +
      (((0:ℚ)):ℝ) * ((100:ℚ):ℝ) + (((0:ℚ)):ℝ) * ((0:ℚ):ℝ)) = ((200:ℤ):ℝ) by push_cast; ring]
    rw [round2_intCast]
    norm_num
  refine ⟨hvw, ?_, hspof, by rw [hspof]; norm_num⟩
  unfold mkScorer
  rw [if_pos hvw]

/-- Witness for the amended C2 at the default weight vector with a dependency
used by 5 of 10 repositories and no external data. -/
theorem subscores_and_composite_in_range_witness :
    0 ≤ (score_dependency ⟨⟨0.3, 0.25, 0.2, 0.15, 0.1⟩⟩ ⟨"react", "npm", 5⟩
      none none 10).spof_score ∧
    (score_dependency ⟨⟨0.3, 0.25, 0.2, 0.15, 0.1⟩⟩ ⟨"react", "npm", 5⟩
      none none 10).spof_score ≤ 100 :=
  (subscores_and_composite_in_range ⟨0.3, 0.25, 0.2, 0.15, 0.1⟩
    ⟨⟨0.3, 0.25, 0.2, 0.15, 0.1⟩⟩ ⟨"react", "npm", 5⟩ none none 10
    (by unfold mkScorer
        rw [if_pos (show validWeights ⟨0.3, 0.25, 0.2, 0.15, 0.1⟩ from
          ⟨by norm_num [Weights.total], by norm_num [Weights.total]⟩)])
    (by norm_num) (by norm_num) (by norm_num) (by norm_num) (by norm_num)
    (by norm_num [Weights.total]) (by norm_num) (by norm_num)
    (fun m hm => Option.noConfusion hm)
    (fun m hm => Option.noConfusion hm)).2.2.2.2.2

/-! ## The concrete scenario of spec section 8 -/

/-- The scenario weight vector `{0.30, 0.25, 0.20, 0.15, 0.10}`. -/
def scenarioWeights : Weights := ⟨0.30, 0.25, 0.20, 0.15, 0.10⟩

/-- The scenario GitHub bundle: 10000 stars, 25 contributors, 100 open
issues, organization backing, last commit 10 days ago, last release 40 days
ago. -/
def scenarioGithub : Option GithubMetrics :=
  some ⟨10000, 25, 100, true, .parsed 10, .parsed 40⟩

/-- The scenario deps.dev bundle: data available, 1000 dependents, 1
advisory. -/
def scenarioDepsdev : Option DepsdevMetrics := some ⟨true, 1000, 1⟩

/-- The scenario dependency, used by 5 of the 10 analysed repositories. -/
def scenarioDep : DepInfo := ⟨"react", "npm", 5⟩

/-- The record the scorer produces on the scenario. -/
noncomputable def scenarioRecord : ScoredDependency :=
  score_dependency ⟨scenarioWeights⟩ scenarioDep scenarioGithub scenarioDepsdev 10

theorem scenario_internal : calc_internal_criticality scenarioDep 10 = 50 := by
  norm_num [calc_internal_criticality, scenarioDep]

theorem scenario_eco :
    calc_ecosystem_popularity scenarioGithub scenarioDepsdev = 87.5 := by
  have hs : starsScoreOf scenarioGithub = 100 := by
    norm_num [starsScoreOf, starsOf, scenarioGithub, logb_ten_10000]
  have hd : dependentsScoreOf scenarioDepsdev = 75 := by
    norm_num [dependentsScoreOf, scenarioDepsdev, logb_ten_1000]
  rw [calc_ecosystem_popularity, if_neg (by simp [scenarioGithub])]
  simp only [hs, hd]
  norm_num

theorem scenario_mr : calc_maintainer_risk scenarioGithub = 14 := by
  norm_num [calc_maintainer_risk, scenarioGithub]

theorem scenario_sh : calc_security_health scenarioGithub scenarioDepsdev = 75 := by
  norm_num [calc_security_health, scenarioGithub, scenarioDepsdev]

theorem scenario_up : calc_upstream_activity scenarioGithub = 100 := by
  norm_num [calc_upstream_activity, scenarioGithub, commitRecencyScore,
    releaseRecencyScore]

theorem scenario_raw_eq :
    ((⟨scenarioWeights⟩ : SPOFScorer).weights.internal_criticality : ℝ) *
        (calc_internal_criticality scenarioDep 10 : ℝ) +
      ((⟨scenarioWeights⟩ : SPOFScorer).weights.ecosystem_popularity : ℝ) *
        calc_ecosystem_popularity scenarioGithub scenarioDepsdev +
      ((⟨scenarioWeights⟩ : SPOFScorer).weights.maintainer_risk : ℝ) *
        (calc_maintainer_risk scenarioGithub : ℝ) +
      ((⟨scenarioWeights⟩ : SPOFScorer).weights.security_health : ℝ) *
        (calc_security_health scenarioGithub scenarioDepsdev : ℝ) +
      ((⟨scenarioWeights⟩ : SPOFScorer).weights.upstream_activity : ℝ) *
        (calc_upstream_activity scenarioGithub : ℝ) = 60.925 := by
  rw [scenario_internal, scenario_eco, scenario_mr, scenario_sh, scenario_up]
  norm_num [scenarioWeights]

theorem scenario_spof : scenarioRecord.spof_score = 60.92 := by
  unfold scenarioRecord
  rw [score_dependency_spof_eq, scenario_raw_eq]
  unfold round2
  rw [show (60.925:ℝ) * 100 = ((6092:ℤ):ℝ) + 1/2 by norm_num, rhe_int_add_half,
    if_pos (by decide : Even (6092:ℤ))]
  norm_num

theorem scenario_confidence_eq_one : scenarioRecord.confidence = 1 := by
  unfold scenarioRecord
  rw [score_dependency_confidence_eq]
  have hc : calc_confidence scenarioGithub scenarioDepsdev = 1 := by
    norm_num [calc_confidence, depsdevAvailable, scenarioGithub, scenarioDepsdev]
  rw [hc, round2_one]

theorem scenario_rec :
    scenarioRecord.recommendation =
      "HIGH - Consider investment to ensure long-term sustainability." := by
  unfold scenarioRecord
  rw [score_dependency_recommendation_eq, scenario_raw_eq, scenario_internal,
    scenario_eco, scenario_mr]
  unfold generate_recommendation
  rw [if_neg (by norm_num), if_pos (by norm_num), if_neg (by norm_num)]

/-- Claim C3 (amended): on the spec's concrete scenario the scorer returns
composite `spof_score` 60.92 (the exact pre-rounding composite is 60.925 and
`round` at two decimals lands on 60.92, as the float run of the code does),
confidence 1.0 and the HIGH-band "consider investment" recommendation (the
HIGH branch with internal criticality 50 ≤ 70). -/
theorem concrete_scenario_eval :
    scenarioRecord.spof_score = 60.92 ∧ scenarioRecord.confidence = 1 ∧
    scenarioRecord.recommendation =
      "HIGH - Consider investment to ensure long-term sustainability." :=
  ⟨scenario_spof, scenario_confidence_eq_one, scenario_rec⟩

/-- Counterexample for C3 as stated: the returned composite is not 60.93 —
the code rounds the composite 60.925 down to 60.92 (in the actual float run
the accumulated sum is 60.924999…, which rounds to 60.92). -/
theorem concrete_scenario_spof_ne_6093 : ¬ (scenarioRecord.spof_score = 60.93) := by
  rw [scenario_spof]
  norm_num

/-! ## The claimed ecosystem-popularity formula (C5) -/

/-- The per-signal log scaling of the spec table:
`min(100, log10(max(1,x))/4 * 100)`. -/
noncomputable def logScaleSignal (x : ℤ) : ℝ :=
  min 100 (Real.logb 10 ((max 1 x : ℤ) : ℝ) / 4 * 100)

/-- The GitHub stars signal, present exactly when the forge bundle is. -/
def starsSignal (g : Option GithubMetrics) : Option ℤ :=
  g.map GithubMetrics.stars

/-- The registry dependents signal, present exactly when the registry bundle
is present with its `data_available` flag set. -/
def dependentSignal (d : Option DepsdevMetrics) : Option ℤ :=
  match d with
  | some m => if m.data_available then some m.dependent_count else none
  | none => none

/-- The ecosystem-popularity formula as the claim words it: log-scale each
present signal, average with equal 0.5/0.5 weight when both signals are
present, use the single log-scaled signal when only one is present, 0 when
neither source is present. -/
noncomputable def claimEcosystemPopularity
    (g : Option GithubMetrics) (d : Option DepsdevMetrics) : ℝ :=
  match starsSignal g, dependentSignal d with
  | some s, some c => logScaleSignal s * (1/2) + logScaleSignal c * (1/2)
  | some s, none => logScaleSignal s
  | none, some c => logScaleSignal c
  | none, none => 0

/-- The log-scaled stars component as the claim computes it. -/
noncomputable def claimStarsScore (g : Option GithubMetrics) : ℝ :=
  match starsSignal g with
  | some s => logScaleSignal s
  | none => 0

/-- The log-scaled dependents component as the claim computes it. -/
noncomputable def claimDependentsScore (d : Option DepsdevMetrics) : ℝ :=
  match dependentSignal d with
  | some c => logScaleSignal c
  | none => 0

/-- The amended combination rule: keyed on positivity of the two log-scaled
component scores rather than on presence of the signals. -/
noncomputable def amendedEcosystemPopularity
    (g : Option GithubMetrics) (d : Option DepsdevMetrics) : ℝ :=
  if g = none ∧ d = none then 0
  else if 0 < claimStarsScore g ∧ 0 < claimDependentsScore d then
    claimStarsScore g * (1/2) + claimDependentsScore d * (1/2)
  else if 0 < claimStarsScore g then claimStarsScore g
  else claimDependentsScore d

theorem claimStarsScore_eq (g : Option GithubMetrics) :
    claimStarsScore g = starsScoreOf g := by
  rcases g with _ | m
  · rfl
  · show logScaleSignal m.stars = starsScoreOf (some m)
    unfold logScaleSignal starsScoreOf starsOf
    have hred : (Option.map GithubMetrics.stars (some m)).getD 0 = m.stars := rfl
    rw [hred]
    by_cases h : 0 < m.stars
    · rw [max_eq_right (by omega : (1:ℤ) ≤ m.stars), if_pos h]
    · rw [max_eq_left (by omega : m.stars ≤ (1:ℤ)), if_neg h]
      norm_num

theorem claimDependentsScore_eq (d : Option DepsdevMetrics) :
    claimDependentsScore d = dependentsScoreOf d := by
  rcases d with _ | m
  · rfl
  · cases hm : m.data_available
    · show (match (if m.data_available then some m.dependent_count else none :
          Option ℤ) with
        | some c => logScaleSignal c
        | none => (0:ℝ)) = dependentsScoreOf (some m)
      rw [hm]
      simp only [if_false, Bool.false_eq_true]
      show (0:ℝ) = dependentsScoreOf (some m)
      simp only [dependentsScoreOf]
      rw [if_neg (by simp [hm])]
    · show (match (if m.data_available then some m.dependent_count else none :
          Option ℤ) with
        | some c => logScaleSignal c
        | none => (0:ℝ)) = dependentsScoreOf (some m)
      rw [hm]
      simp only [if_true, ite_true]
      show logScaleSignal m.dependent_count = dependentsScoreOf (some m)
      unfold logScaleSignal
      simp only [dependentsScoreOf]
      by_cases h : 0 < m.dependent_count
      · rw [max_eq_right (by omega : (1:ℤ) ≤ m.dependent_count),
          if_pos ⟨hm, h⟩]
      · rw [max_eq_left (by omega : m.dependent_count ≤ (1:ℤ)),
          if_neg (by rintro ⟨h1, h2⟩; exact h h2)]
        norm_num

/-- Claim C5 (amended): `_calc_ecosystem_popularity` equals the claimed
per-signal log scaling, but the combination is keyed on positivity of the
two log-scaled component scores: both positive → equal 0.5/0.5 average;
otherwise the stars score if it is positive; otherwise the dependents score
(which is 0 when no signal contributes). -/
theorem ecosystem_popularity_combination (g : Option GithubMetrics)
    (d : Option DepsdevMetrics) :
    calc_ecosystem_popularity g d = amendedEcosystemPopularity g d := by
  have hA := claimStarsScore_eq g
  have hB := claimDependentsScore_eq d
  have hss := starsScoreOf_le_100 g
  have hds := dependentsScoreOf_le_100 d
  simp only [calc_ecosystem_popularity, amendedEcosystemPopularity]
  rw [hA, hB]
  split_ifs with h0 h1 h2
  · rfl
  · exact min_eq_right (by linarith)
  · exact min_eq_right (by linarith)
  · exact min_eq_right (by linarith)

/-- Counterexample for C5 as stated: with a present forge bundle having
1 star (log-scaled score 0) and a present registry bundle with 1000
dependents (log-scaled score 75), the code returns the dependents score 75
alone, while the claimed presence-keyed formula averages to 37.5. -/
theorem ecosystem_popularity_claim_formula_false :
    calc_ecosystem_popularity (some ⟨1, 0, 0, false, .absent, .absent⟩)
        (some ⟨true, 1000, 0⟩) ≠
      claimEcosystemPopularity (some ⟨1, 0, 0, false, .absent, .absent⟩)
        (some ⟨true, 1000, 0⟩) := by
  have hs : starsScoreOf (some ⟨1, 0, 0, false, .absent, .absent⟩) = 0 := by
    unfold starsScoreOf starsOf
    norm_num [Real.logb_one]
  have hd : dependentsScoreOf (some ⟨true, 1000, 0⟩) = 75 := by
    norm_num [dependentsScoreOf, logb_ten_1000]
  have hlhs : calc_ecosystem_popularity (some ⟨1, 0, 0, false, .absent, .absent⟩)
      (some ⟨true, 1000, 0⟩) = 75 := by
    rw [calc_ecosystem_popularity, if_neg (by simp)]
    simp only [hs, hd]
    norm_num
  have hl1 : logScaleSignal 1 = 0 := by
    unfold logScaleSignal
    norm_num [Real.logb_one]
  have hl2 : logScaleSignal 1000 = 75 := by
    unfold logScaleSignal
    norm_num [logb_ten_1000]
  have hrhs : claimEcosystemPopularity (some ⟨1, 0, 0, false, .absent, .absent⟩)
      (some ⟨true, 1000, 0⟩) = 37.5 := by
    show logScaleSignal 1 * (1/2) + logScaleSignal 1000 * (1/2) = 37.5
    rw [hl1, hl2]
    norm_num
  rw [hlhs, hrhs]
  norm_num

/-! ## Malformed timestamps (C9) -/

/-- The computed fields of a scored record: everything except the verbatim
`raw_data` echo of the inputs. -/
noncomputable def visibleFields (r : ScoredDependency) :
    String × String × ℝ × ℚ × (ℚ × ℝ × ℚ × ℚ × ℚ) × String :=
  (r.name, r.ecosystem, r.spof_score, r.confidence,
    (r.metrics.internal_criticality, r.metrics.ecosystem_popularity,
      r.metrics.maintainer_risk, r.metrics.security_health,
      r.metrics.upstream_activity), r.recommendation)

/-- Claim C9: a timestamp string that fails to parse is caught and skipped —
scoring a bundle whose `last_commit_date` (resp. `last_release_date`) is
malformed produces exactly the computed record of the same bundle with the
field absent; with one malformed and one parsed timestamp the activity score
is the remaining recency score alone; with both timestamps absent or
unparseable it is the fixed default 50. -/
theorem malformed_timestamps_skipped :
    (∀ (sc : SPOFScorer) (dep : DepInfo) (d : Option DepsdevMetrics) (t : ℤ)
        (m : GithubMetrics) (s : String),
      visibleFields (score_dependency sc dep
          (some { m with last_commit_date := .malformed s }) d t) =
        visibleFields (score_dependency sc dep
          (some { m with last_commit_date := .absent }) d t)) ∧
    (∀ (sc : SPOFScorer) (dep : DepInfo) (d : Option DepsdevMetrics) (t : ℤ)
        (m : GithubMetrics) (s : String),
      visibleFields (score_dependency sc dep
          (some { m with last_release_date := .malformed s }) d t) =
        visibleFields (score_dependency sc dep
          (some { m with last_release_date := .absent }) d t)) ∧
    (∀ (m : GithubMetrics) (s : String) (days : ℤ),
      m.last_commit_date = .malformed s → m.last_release_date = .parsed days →
      calc_upstream_activity (some m) = releaseRecencyScore days) ∧
    (∀ (m : GithubMetrics) (s : String) (days : ℤ),
      m.last_release_date = .malformed s → m.last_commit_date = .parsed days →
      calc_upstream_activity (some m) = commitRecencyScore days) ∧
    (∀ m : GithubMetrics, m.last_commit_date.isParsed = false →
      m.last_release_date.isParsed = false →
      calc_upstream_activity (some m) = 50) := by
  refine ⟨?_, ?_, ?_, ?_, ?_⟩
  · intro sc dep d t m s
    rfl
  · intro sc dep d t m s
    rfl
  · intro m s days hc hr
    obtain ⟨st, co, oi, ob, lc, lr⟩ := m
    simp only at hc hr
    subst hc
    subst hr
    rfl
  · intro m s days hr hc
    obtain ⟨st, co, oi, ob, lc, lr⟩ := m
    simp only at hc hr
    subst hc
    subst hr
    rfl
  · intro m h1 h2
    obtain ⟨st, co, oi, ob, lc, lr⟩ := m
    rcases lc with _ | s1 | d1 <;> rcases lr with _ | s2 | d2 <;>
      first
      | rfl
      | simp only [TsField.isParsed, Bool.true_eq_false] at h1 h2

/-- Witness for C9 at concrete bundles: a malformed commit date with a
release 40 days old scores the release alone; the symmetric case scores the
commit alone; two malformed dates give the default 50. -/
theorem malformed_timestamps_skipped_witness :
    calc_upstream_activity
        (some ⟨0, 0, 0, false, .malformed "not-a-date", .parsed 40⟩) =
      releaseRecencyScore 40 ∧
    calc_upstream_activity
        (some ⟨0, 0, 0, false, .parsed 10, .malformed "oops"⟩) =
      commitRecencyScore 10 ∧
    calc_upstream_activity
        (some ⟨0, 0, 0, false, .malformed "a", .malformed "b"⟩) = 50 :=
  ⟨malformed_timestamps_skipped.2.2.1 ⟨0, 0, 0, false, .malformed "not-a-date",
      .parsed 40⟩ "not-a-date" 40 rfl rfl,
    malformed_timestamps_skipped.2.2.2.1 ⟨0, 0, 0, false, .parsed 10,
      .malformed "oops"⟩ "oops" 10 rfl rfl,
    malformed_timestamps_skipped.2.2.2.2 ⟨0, 0, 0, false, .malformed "a",
      .malformed "b"⟩ rfl rfl⟩

/-! ## Population normalizer lemmas (C1) -/

theorem foldl_min_le (l : List ℝ) :
    ∀ (a x : ℝ), (x = a ∨ x ∈ l) → l.foldl min a ≤ x := by
  induction l with
  | nil =>
      intro a x h
      rcases h with rfl | h
      · exact le_refl x
      · cases h
  | cons y l ih =>
      intro a x h
      show l.foldl min (min a y) ≤ x
      rcases h with rfl | h
      · exact le_trans (ih (min x y) (min x y) (Or.inl rfl)) (min_le_left x y)
      · rcases List.mem_cons.mp h with rfl | h2
        · exact le_trans (ih (min a x) (min a x) (Or.inl rfl)) (min_le_right a x)
        · exact ih (min a y) x (Or.inr h2)

theorem le_foldl_max (l : List ℝ) :
    ∀ (a x : ℝ), (x = a ∨ x ∈ l) → x ≤ l.foldl max a := by
  induction l with
  | nil =>
      intro a x h
      rcases h with rfl | h
      · exact le_refl x
      · cases h
  | cons y l ih =>
      intro a x h
      show x ≤ l.foldl max (max a y)
      rcases h with rfl | h
      · exact le_trans (le_max_left x y) (ih (max x y) (max x y) (Or.inl rfl))
      · rcases List.mem_cons.mp h with rfl | h2
        · exact le_trans (le_max_right a x) (ih (max a x) (max a x) (Or.inl rfl))
        · exact ih (max a y) x (Or.inr h2)

theorem stretchScore_bounds {lo hb x : ℝ} (h1 : lo ≤ x) (h2 : x ≤ hb) :
    0 ≤ stretchScore lo hb x ∧ stretchScore lo hb x ≤ 100 := by
  unfold stretchScore
  split_ifs with h
  · exact ⟨le_min (by norm_num) (le_max_left 0 x), min_le_left _ _⟩
  · have hlt : lo < hb := lt_of_not_ge h
    have hpos : (0:ℝ) < hb - lo := by linarith
    constructor
    · have : (0:ℝ) ≤ (x - lo) / (hb - lo) := div_nonneg (by linarith) (le_of_lt hpos)
      linarith
    · have : (x - lo) / (hb - lo) ≤ 1 := by
        rw [div_le_one hpos]
        linarith
      linarith

theorem stretchScore_mono {lo hb x y : ℝ} (h : x ≤ y) :
    stretchScore lo hb x ≤ stretchScore lo hb y := by
  unfold stretchScore
  split_ifs with h0
  · exact min_le_min (le_refl 100) (max_le_max (le_refl 0) h)
  · have hpos : (0:ℝ) < hb - lo := by
      have := lt_of_not_ge h0
      linarith
    have h1 : (x - lo) / (hb - lo) ≤ (y - lo) / (hb - lo) :=
      (div_le_div_iff_of_pos_right hpos).mpr (by linarith)
    exact mul_le_mul_of_nonneg_right h1 (by norm_num)

theorem normalize_length (deps : List ScoredDependency) :
    (normalize_dependency_scores deps).length = deps.length := by
  cases deps with
  | nil => rfl
  | cons d0 rest => simp [normalize_dependency_scores]

/-- Claim C1: Modelled from the spec — the population normalization (whose
algorithm is absent from the available sources; spec sections 4.5 and 9 fix
only its contract) applied once to the full list of scored dependencies is
monotonic: records with pre-normalization scores `a < b` receive
post-normalization scores with `a' ≤ b'`; and every post-normalization score
lies in `[0, 100]`. -/
theorem population_normalizer_monotone_and_bounded
    (deps : List ScoredDependency) (i j : ℕ)
    (hi : i < deps.length) (hj : j < deps.length)
    (hni : i < (normalize_dependency_scores deps).length)
    (hnj : j < (normalize_dependency_scores deps).length) :
    (0 ≤ ((normalize_dependency_scores deps).get ⟨i, hni⟩).spof_score ∧
      ((normalize_dependency_scores deps).get ⟨i, hni⟩).spof_score ≤ 100) ∧
    ((deps.get ⟨i, hi⟩).spof_score < (deps.get ⟨j, hj⟩).spof_score →
      ((normalize_dependency_scores deps).get ⟨i, hni⟩).spof_score ≤
        ((normalize_dependency_scores deps).get ⟨j, hnj⟩).spof_score) := by
  match deps with
  | [] => exact absurd hi (Nat.not_lt_zero i)
  | d0 :: rest =>
    have hchar : ∀ (k : ℕ) (hk : k < (normalize_dependency_scores (d0 :: rest)).length)
        (hk2 : k < (d0 :: rest).length),
        ((normalize_dependency_scores (d0 :: rest)).get ⟨k, hk⟩).spof_score =
          stretchScore ((rest.map (fun d => d.spof_score)).foldl min d0.spof_score)
            ((rest.map (fun d => d.spof_score)).foldl max d0.spof_score)
            (((d0 :: rest).get ⟨k, hk2⟩).spof_score) := by
      intro k hk hk2
      simp only [normalize_dependency_scores, List.get_eq_getElem,
        List.getElem_map]
    have hmem : ∀ (k : ℕ) (hk2 : k < (d0 :: rest).length),
        ((d0 :: rest).get ⟨k, hk2⟩).spof_score = d0.spof_score ∨
          ((d0 :: rest).get ⟨k, hk2⟩).spof_score ∈ rest.map (fun d => d.spof_score) := by
      intro k hk2
      have h1 : (d0 :: rest).get ⟨k, hk2⟩ ∈ d0 :: rest := List.get_mem _ _ hk2
      rcases List.mem_cons.mp h1 with h2 | h2
      · exact Or.inl (congrArg ScoredDependency.spof_score h2)
      · exact Or.inr (List.mem_map.mpr ⟨_, h2, rfl⟩)
    have hlo : ∀ (k : ℕ) (hk2 : k < (d0 :: rest).length),
        (rest.map (fun d => d.spof_score)).foldl min d0.spof_score ≤
          ((d0 :: rest).get ⟨k, hk2⟩).spof_score := by
      intro k hk2
      exact foldl_min_le _ _ _ (hmem k hk2)
    have hhi : ∀ (k : ℕ) (hk2 : k < (d0 :: rest).length),
        ((d0 :: rest).get ⟨k, hk2⟩).spof_score ≤
          (rest.map (fun d => d.spof_score)).foldl max d0.spof_score := by
      intro k hk2
      exact le_foldl_max _ _ _ (hmem k hk2)
    constructor
    · rw [hchar i hni hi]
      exact stretchScore_bounds (hlo i hi) (hhi i hi)
    · intro hlt
      rw [hchar i hni hi, hchar j hnj hj]
      exact stretchScore_mono (le_of_lt hlt)

/-- A concrete scored record used by the normalization witness. -/
noncomputable def sampleScored (x : ℝ) : ScoredDependency :=
  { name := "pkg"
    ecosystem := "npm"
    spof_score := x
    confidence := 1
    metrics := ⟨0, 0, 0, 0, 0⟩
    raw_data := ⟨none, none, ⟨"pkg", "npm", 0⟩⟩
    recommendation := "LOW - Limited impact. Standard monitoring sufficient." }

/-- A concrete two-record population for the normalization witness. -/
noncomputable def samplePopulation : List ScoredDependency :=
  [sampleScored 10, sampleScored 20]

/-- Witness for C1 on a two-record population with scores 10 < 20. -/
theorem population_normalizer_witness :
    ((samplePopulation.get ⟨0, by norm_num [samplePopulation]⟩).spof_score <
      (samplePopulation.get ⟨1, by norm_num [samplePopulation]⟩).spof_score) ∧
    (0 ≤ ((normalize_dependency_scores samplePopulation).get
        ⟨0, by rw [normalize_length]; norm_num [samplePopulation]⟩).spof_score ∧
      ((normalize_dependency_scores samplePopulation).get
        ⟨0, by rw [normalize_length]; norm_num [samplePopulation]⟩).spof_score ≤ 100) ∧
    ((normalize_dependency_scores samplePopulation).get
        ⟨0, by rw [normalize_length]; norm_num [samplePopulation]⟩).spof_score ≤
      ((normalize_dependency_scores samplePopulation).get
        ⟨1, by rw [normalize_length]; norm_num [samplePopulation]⟩).spof_score := by
  have hlt : (samplePopulation.get ⟨0, by norm_num [samplePopulation]⟩).spof_score <
      (samplePopulation.get ⟨1, by norm_num [samplePopulation]⟩).spof_score := by
    show (10:ℝ) < 20
    norm_num
  have h := population_normalizer_monotone_and_bounded samplePopulation 0 1
    (by norm_num [samplePopulation]) (by norm_num [samplePopulation])
    (by rw [normalize_length]; norm_num [samplePopulation])
    (by rw [normalize_length]; norm_num [samplePopulation])
  exact ⟨hlt, h.1, h.2 hlt⟩

/-! ## Characterization of aggregation (C7, C8) -/

/-- The nested aggregation loops equal a single fold over the flattened,
repository-labelled occurrence list. -/
theorem aggregate_eq_foldl_occurrences (input : List (String × List Dependency)) :
    aggregate_dependencies input = (occurrencesOf input).foldl addOcc [] := by
  unfold aggregate_dependencies occurrencesOf
  rw [List.foldl_flatten, List.foldl_map]
  congr 1
  funext acc p
  rw [List.foldl_map]

/-- The effect of one occurrence on the entry stored under its own key:
update the existing entry, or the blank entry when the key is new. -/
def occStep (e : Option AggEntry) (o : String × Dependency) : Option AggEntry :=
  some (updEntry o.1 o.2 (e.getD (blankEntry o.2)))

/-- The occurrences of the input contributing to a given key, in processing
order. -/
def occsFor (key : String) (input : List (String × List Dependency)) :
    List (String × Dependency) :=
  (occurrencesOf input).filter (fun o => keyOf o.2 = key)

theorem fst_updKey (k0 : String) (f : AggEntry → AggEntry) (q : String × AggEntry) :
    (if q.1 = k0 then (q.1, f q.2) else q).1 = q.1 := by
  split_ifs <;> rfl

theorem find?_map_updKey (key k0 : String) (f : AggEntry → AggEntry)
    (l : List (String × AggEntry)) :
    (l.map (fun p => if p.1 = k0 then (p.1, f p.2) else p)).find?
        (fun p => p.1 = key) =
      (l.find? (fun p => p.1 = key)).map
        (fun p => if p.1 = k0 then (p.1, f p.2) else p) := by
  induction l with
  | nil => rfl
  | cons p l ih =>
    by_cases hp : p.1 = key
    · rw [List.map_cons, List.find?_cons_of_pos _ (by rw [fst_updKey]; simp [hp]),
        List.find?_cons_of_pos _ (by simp [hp])]
      rfl
    · rw [List.map_cons, List.find?_cons_of_neg _ (by rw [fst_updKey]; simp [hp]),
        List.find?_cons_of_neg _ (by simp [hp])]
      exact ih

theorem lookupAgg_addOcc_match (acc : List (String × AggEntry))
    (o : String × Dependency) :
    lookupAgg (keyOf o.2) (addOcc acc o) = occStep (lookupAgg (keyOf o.2) acc) o := by
  unfold addOcc lookupAgg occStep
  by_cases hany : acc.any (fun p => p.1 = keyOf o.2)
  · rw [if_pos hany, find?_map_updKey]
    obtain ⟨q, hq⟩ : ∃ q, acc.find? (fun p => p.1 = keyOf o.2) = some q := by
      have h1 : (acc.find? (fun p => p.1 = keyOf o.2)).isSome := by
        rw [List.find?_isSome]
        obtain ⟨a, ha, hpa⟩ := List.any_eq_true.mp hany
        exact ⟨a, ha, hpa⟩
      exact Option.isSome_iff_exists.mp h1
    have hqd := @List.find?_some _ (fun p => decide (p.1 = keyOf o.2)) q acc hq
    have hq1 : q.1 = keyOf o.2 := of_decide_eq_true hqd
    rw [hq]
    simp only [Option.map_some', Option.getD_some]
    rw [if_pos hq1]
  · rw [if_neg hany, List.find?_append]
    have hnone : acc.find? (fun p => p.1 = keyOf o.2) = none := by
      rw [List.find?_eq_none]
      intro x hx
      simp only [decide_eq_true_eq]
      intro hx1
      exact hany (List.any_eq_true.mpr ⟨x, hx, by simp [hx1]⟩)
    rw [hnone]
    simp only [Option.none_or]
    rw [List.find?_cons_of_pos _ (by simp)]
    rfl

theorem lookupAgg_addOcc_other (acc : List (String × AggEntry))
    (o : String × Dependency) (key : String) (hk : keyOf o.2 ≠ key) :
    lookupAgg key (addOcc acc o) = lookupAgg key acc := by
  unfold addOcc lookupAgg
  by_cases hany : acc.any (fun p => p.1 = keyOf o.2)
  · rw [if_pos hany, find?_map_updKey]
    cases hfind : acc.find? (fun p => p.1 = key) with
    | none => rfl
    | some q =>
      have hqd := @List.find?_some _ (fun p => decide (p.1 = key)) q acc hfind
      have hq1 : q.1 = key := of_decide_eq_true hqd
      simp only [Option.map_some']
      rw [if_neg (show ¬ (q.1 = keyOf o.2) from by
        rw [hq1]; exact fun h => hk h.symm)]
  · rw [if_neg hany, List.find?_append]
    rw [List.find?_cons_of_neg _ (by simpa using hk)]
    show ((acc.find? (fun p => p.1 = key)).or (List.find? _ [])).map Prod.snd = _
    rw [show (List.find? (fun p => p.1 = key) ([] : List (String × AggEntry))) =
      none from rfl]
    rw [Option.or_none]

theorem lookupAgg_foldl (key : String) (os : List (String × Dependency)) :
    ∀ acc, lookupAgg key (os.foldl addOcc acc) =
      (os.filter (fun o => keyOf o.2 = key)).foldl occStep (lookupAgg key acc) := by
  induction os with
  | nil => intro acc; rfl
  | cons o os ih =>
    intro acc
    show lookupAgg key (os.foldl addOcc (addOcc acc o)) = _
    by_cases hk : keyOf o.2 = key
    · rw [List.filter_cons_of_pos (by simp [hk])]
      rw [ih (addOcc acc o)]
      subst hk
      rw [lookupAgg_addOcc_match]
      rfl
    · rw [List.filter_cons_of_neg (by simp [hk])]
      rw [ih (addOcc acc o), lookupAgg_addOcc_other acc o key hk]

theorem lookupAgg_aggregate (key : String) (input : List (String × List Dependency)) :
    lookupAgg key (aggregate_dependencies input) =
      (occsFor key input).foldl occStep none := by
  rw [aggregate_eq_foldl_occurrences, lookupAgg_foldl]
  rfl

/-- The per-entry accumulation of a run of occurrences on an existing entry. -/
def updFold (e : AggEntry) (os : List (String × Dependency)) : AggEntry :=
  os.foldl (fun e o => updEntry o.1 o.2 e) e

theorem foldl_occStep_some (os : List (String × Dependency)) :
    ∀ e : AggEntry, os.foldl occStep (some e) = some (updFold e os) := by
  induction os with
  | nil => intro e; rfl
  | cons o os ih => intro e; exact ih (updEntry o.1 o.2 e)

theorem mem_updEntry_repos (r : String) (d : Dependency) (e : AggEntry) (x : String) :
    x ∈ (updEntry r d e).repos_using ↔ x ∈ e.repos_using ∨ x = r := by
  unfold updEntry
  split_ifs with h
  · constructor
    · exact fun hx => Or.inl hx
    · rintro (hx | rfl)
      · exact hx
      · exact List.elem_iff.mp h
  · simp [List.mem_append]

theorem nodup_updEntry_repos (r : String) (d : Dependency) (e : AggEntry)
    (h : e.repos_using.Nodup) : (updEntry r d e).repos_using.Nodup := by
  unfold updEntry
  split_ifs with hmem
  · exact h
  · rw [List.nodup_append]
    exact ⟨h, List.nodup_singleton r, by
      intro x hx hx2
      rw [List.mem_singleton] at hx2
      subst hx2
      exact hmem (List.elem_iff.mpr hx)⟩

theorem updFold_versions (os : List (String × Dependency)) :
    ∀ e : AggEntry, (updFold e os).versions =
      e.versions ∪ (os.map (fun o => o.2.version)).toFinset := by
  induction os with
  | nil => intro e; simp [updFold]
  | cons o os ih =>
    intro e
    show (updFold (updEntry o.1 o.2 e) os).versions = _
    rw [ih]
    show insert o.2.version e.versions ∪ (os.map (fun o => o.2.version)).toFinset = _
    rw [List.map_cons, List.toFinset_cons, Finset.insert_union, Finset.union_insert]

theorem updFold_repos_mem (os : List (String × Dependency)) :
    ∀ (e : AggEntry) (x : String), x ∈ (updFold e os).repos_using ↔
      x ∈ e.repos_using ∨ x ∈ os.map Prod.fst := by
  induction os with
  | nil => intro e x; simp [updFold]
  | cons o os ih =>
    intro e x
    show x ∈ (updFold (updEntry o.1 o.2 e) os).repos_using ↔ _
    rw [ih, mem_updEntry_repos, List.map_cons, List.mem_cons]
    tauto

theorem updFold_repos_nodup (os : List (String × Dependency)) :
    ∀ e : AggEntry, e.repos_using.Nodup → (updFold e os).repos_using.Nodup := by
  induction os with
  | nil => intro e h; exact h
  | cons o os ih =>
    intro e h
    exact ih (updEntry o.1 o.2 e) (nodup_updEntry_repos o.1 o.2 e h)

/-- Extensional description of the aggregated entry stored under a key: its
version set is the version set of all contributing occurrences, and its
usage list is the duplicate-free list of contributing repositories. -/
theorem lookupAgg_aggregate_spec (key : String)
    (input : List (String × List Dependency)) :
    (occsFor key input = [] → lookupAgg key (aggregate_dependencies input) = none) ∧
    ∀ e, lookupAgg key (aggregate_dependencies input) = some e →
      e.versions = ((occsFor key input).map (fun o => o.2.version)).toFinset ∧
      (∀ r, r ∈ e.repos_using ↔ r ∈ (occsFor key input).map Prod.fst) ∧
      e.repos_using.Nodup := by
  rw [lookupAgg_aggregate]
  cases hos : occsFor key input with
  | nil =>
    exact ⟨fun _ => rfl, fun e he => Option.noConfusion he⟩
  | cons o os =>
    refine ⟨fun h => List.noConfusion h, ?_⟩
    intro e he
    rw [show (o :: os).foldl occStep none =
      some (updFold (updEntry o.1 o.2 (blankEntry o.2)) os) from
        foldl_occStep_some os (updEntry o.1 o.2 (blankEntry o.2))] at he
    have he2 : e = updFold (updEntry o.1 o.2 (blankEntry o.2)) os :=
      Option.some.inj he.symm
    subst he2
    refine ⟨?_, ?_, ?_⟩
    · rw [updFold_versions]
      show insert o.2.version (∅ : Finset String) ∪ _ = _
      rw [List.map_cons, List.toFinset_cons, Finset.insert_union,
        Finset.empty_union]
    · intro r
      rw [updFold_repos_mem, mem_updEntry_repos, List.map_cons, List.mem_cons]
      show (r ∈ ([] : List String) ∨ r = o.1) ∨ _ ↔ _
      simp only [List.not_mem_nil, false_or]
    · refine updFold_repos_nodup os _ (nodup_updEntry_repos o.1 o.2 _ ?_)
      show ([] : List String).Nodup
      exact List.nodup_nil

theorem lookupAgg_aggregate_isSome (key : String)
    (input : List (String × List Dependency)) :
    (lookupAgg key (aggregate_dependencies input)).isSome = true ↔
      occsFor key input ≠ [] := by
  rw [lookupAgg_aggregate]
  cases hos : occsFor key input with
  | nil => simp
  | cons o os =>
    rw [show (o :: os).foldl occStep none =
      some (updFold (updEntry o.1 o.2 (blankEntry o.2)) os) from
        foldl_occStep_some os (updEntry o.1 o.2 (blankEntry o.2))]
    simp

theorem occsFor_perm (key : String) (in1 in2 : List (String × List Dependency))
    (h : in1.Perm in2) : (occsFor key in1).Perm (occsFor key in2) := by
  unfold occsFor occurrencesOf
  exact ((h.map _).flatten).filter _

/-- Claim C7: aggregation is commutative in repository processing order —
for permuted inputs, every canonical key is present in one result exactly
when it is present in the other, and the two entries stored under it have
the same version set, the same usage-list membership, and the same
usage count. -/
theorem aggregation_commutative (in1 in2 : List (String × List Dependency))
    (hperm : in1.Perm in2) (key : String) :
    ((lookupAgg key (aggregate_dependencies in1)).isSome = true ↔
      (lookupAgg key (aggregate_dependencies in2)).isSome = true) ∧
    ∀ e1 e2, lookupAgg key (aggregate_dependencies in1) = some e1 →
      lookupAgg key (aggregate_dependencies in2) = some e2 →
      e1.versions = e2.versions ∧
      (∀ r, r ∈ e1.repos_using ↔ r ∈ e2.repos_using) ∧
      e1.usageCount = e2.usageCount := by
  have hocc := occsFor_perm key in1 in2 hperm
  constructor
  · rw [lookupAgg_aggregate_isSome, lookupAgg_aggregate_isSome]
    constructor
    · intro h1 h2
      apply h1
      have h3 := hocc
      rw [h2] at h3
      exact h3.eq_nil
    · intro h1 h2
      apply h1
      have h3 := hocc.symm
      rw [h2] at h3
      exact h3.eq_nil
  · intro e1 e2 h1 h2
    obtain ⟨hv1, hr1, hn1⟩ := (lookupAgg_aggregate_spec key in1).2 e1 h1
    obtain ⟨hv2, hr2, hn2⟩ := (lookupAgg_aggregate_spec key in2).2 e2 h2
    have hvp : ((occsFor key in1).map (fun o => o.2.version)).toFinset =
        ((occsFor key in2).map (fun o => o.2.version)).toFinset :=
      List.toFinset_eq_of_perm _ _ (hocc.map _)
    refine ⟨hv1.trans (hvp.trans hv2.symm), ?_, ?_⟩
    · intro r
      rw [hr1 r, hr2 r]
      exact (hocc.map Prod.fst).mem_iff
    · have hts : e1.repos_using.toFinset = e2.repos_using.toFinset := by
        ext x
        rw [List.mem_toFinset, List.mem_toFinset, hr1 x, hr2 x]
        exact (hocc.map Prod.fst).mem_iff
      have c1 := List.toFinset_card_of_nodup hn1
      have c2 := List.toFinset_card_of_nodup hn2
      unfold AggEntry.usageCount
      rw [← c1, ← c2, hts]

theorem keys_addOcc (acc : List (String × AggEntry)) (o : String × Dependency) :
    (addOcc acc o).map Prod.fst =
      if acc.any (fun p => p.1 = keyOf o.2) then acc.map Prod.fst
      else acc.map Prod.fst ++ [keyOf o.2] := by
  simp only [addOcc]
  split_ifs with h
  · rw [List.map_map]
    congr 1
    funext p
    show (if p.1 = keyOf o.2 then (p.1, updEntry o.1 o.2 p.2) else p).1 = p.1
    exact fst_updKey _ _ p
  · rw [List.map_append]
    rfl

theorem foldl_addOcc_keys_nodup (os : List (String × Dependency)) :
    ∀ acc : List (String × AggEntry), ((acc.map Prod.fst).Nodup) →
      (((os.foldl addOcc acc).map Prod.fst)).Nodup := by
  induction os with
  | nil => intro acc h; exact h
  | cons o os ih =>
    intro acc h
    apply ih
    rw [keys_addOcc]
    split_ifs with hany
    · exact h
    · rw [List.nodup_append]
      refine ⟨h, List.nodup_singleton _, ?_⟩
      intro x hx hx2
      rw [List.mem_singleton] at hx2
      subst hx2
      obtain ⟨p, hp, hfst⟩ := List.mem_map.mp hx
      exact hany (List.any_eq_true.mpr ⟨p, hp, by simp [hfst]⟩)

theorem aggregate_keys_nodup (input : List (String × List Dependency)) :
    ((aggregate_dependencies input).map Prod.fst).Nodup := by
  rw [aggregate_eq_foldl_occurrences]
  exact foldl_addOcc_keys_nodup _ [] List.nodup_nil

theorem mem_occsFor {input : List (String × List Dependency)} {r : String}
    {deps : List Dependency} {d : Dependency} {key : String}
    (hin : (r, deps) ∈ input) (hd : d ∈ deps) (hk : keyOf d = key) :
    (r, d) ∈ occsFor key input := by
  unfold occsFor occurrencesOf
  rw [List.mem_filter]
  refine ⟨?_, by simp [hk]⟩
  rw [List.mem_flatten]
  exact ⟨deps.map (fun d => (r, d)), List.mem_map.mpr ⟨(r, deps), hin, rfl⟩,
    List.mem_map.mpr ⟨d, hd, rfl⟩⟩

/-- The character equivalence of the claim: equal up to letter case, or both
characters drawn from the dash/underscore pair. -/
def pyEquivChar (c1 c2 : Char) : Prop :=
  c1.toLower = c2.toLower ∨ ((c1 = '-' ∨ c1 = '_') ∧ (c2 = '-' ∨ c2 = '_'))

instance (c1 c2 : Char) : Decidable (pyEquivChar c1 c2) := by
  unfold pyEquivChar; infer_instance

theorem pyEquiv_map_eq (l1 : List Char) :
    ∀ l2 : List Char, l1.length = l2.length →
      (∀ p ∈ l1.zip l2, pyEquivChar p.1 p.2) →
      (l1.map Char.toLower).map dashChar = (l2.map Char.toLower).map dashChar := by
  induction l1 with
  | nil =>
    intro l2 hlen _
    cases l2 with
    | nil => rfl
    | cons c2 l2 => simp at hlen
  | cons c1 l1 ih =>
    intro l2 hlen hall
    cases l2 with
    | nil => simp at hlen
    | cons c2 l2 =>
      simp only [List.map_cons]
      have hhead : pyEquivChar c1 c2 := by
        apply hall (c1, c2)
        rw [List.zip_cons_cons]
        exact List.mem_cons_self _ _
      have htail : (l1.map Char.toLower).map dashChar =
          (l2.map Char.toLower).map dashChar := by
        apply ih l2 (by simpa using hlen)
        intro p hp
        apply hall p
        rw [List.zip_cons_cons]
        exact List.mem_cons_of_mem _ hp
      rw [htail]
      congr 1
      rcases hhead with h | ⟨h1, h2⟩
      · rw [h]
      · rcases h1 with rfl | rfl <;> rcases h2 with rfl | rfl <;> decide

/-- Claim C8: canonical identity uniqueness — the aggregated mapping has no
duplicate keys; any two occurrences with the same ecosystem tag and the same
normalized name share one key and land (with both their versions) in the
single record stored under it; and for pypi, names that differ only by
letter case or by interchange of dash and underscore normalize equally. -/
theorem canonical_identity_unique :
    (∀ input : List (String × List Dependency),
      ((aggregate_dependencies input).map Prod.fst).Nodup) ∧
    (∀ (input : List (String × List Dependency)) (r1 r2 : String)
        (deps1 deps2 : List Dependency) (d1 d2 : Dependency),
      (r1, deps1) ∈ input → d1 ∈ deps1 → (r2, deps2) ∈ input → d2 ∈ deps2 →
      d1.ecosystem = d2.ecosystem →
      normalize_package_name d1 = normalize_package_name d2 →
      keyOf d1 = keyOf d2 ∧
      ∃ e, lookupAgg (keyOf d1) (aggregate_dependencies input) = some e ∧
        d1.version ∈ e.versions ∧ d2.version ∈ e.versions) ∧
    (∀ d1 d2 : Dependency, d1.ecosystem = "pypi" → d2.ecosystem = "pypi" →
      d1.name.data.length = d2.name.data.length →
      (∀ p ∈ d1.name.data.zip d2.name.data, pyEquivChar p.1 p.2) →
      normalize_package_name d1 = normalize_package_name d2) := by
  refine ⟨aggregate_keys_nodup, ?_, ?_⟩
  · intro input r1 r2 deps1 deps2 d1 d2 hin1 hd1 hin2 hd2 heco hnorm
    have hkey : keyOf d1 = keyOf d2 := by
      unfold keyOf
      rw [heco, hnorm]
    refine ⟨hkey, ?_⟩
    have ho1 : (r1, d1) ∈ occsFor (keyOf d1) input := mem_occsFor hin1 hd1 rfl
    have ho2 : (r2, d2) ∈ occsFor (keyOf d1) input := mem_occsFor hin2 hd2 hkey.symm
    have hne : occsFor (keyOf d1) input ≠ [] := by
      intro h
      rw [h] at ho1
      cases ho1
    obtain ⟨e, he⟩ : ∃ e, lookupAgg (keyOf d1) (aggregate_dependencies input) =
        some e :=
      Option.isSome_iff_exists.mp
        ((lookupAgg_aggregate_isSome (keyOf d1) input).mpr hne)
    obtain ⟨hv, hr, hn⟩ := (lookupAgg_aggregate_spec (keyOf d1) input).2 e he
    refine ⟨e, he, ?_, ?_⟩
    · rw [hv, List.mem_toFinset]
      exact List.mem_map.mpr ⟨(r1, d1), ho1, rfl⟩
    · rw [hv, List.mem_toFinset]
      exact List.mem_map.mpr ⟨(r2, d2), ho2, rfl⟩
  · intro d1 d2 h1 h2 hlen hall
    simp only [normalize_package_name]
    rw [h1, h2]
    rw [show strLower "pypi" = "pypi" from by decide]
    rw [if_pos rfl]
    show String.mk ((d1.name.data.map Char.toLower).map dashChar) =
      String.mk ((d2.name.data.map Char.toLower).map dashChar)
    exact congrArg String.mk (pyEquiv_map_eq d1.name.data d2.name.data hlen hall)

/-- Witness for C7: swapping the two repositories of a concrete input keeps
the lodash entry present with the same version set and usage count. -/
theorem aggregation_commutative_witness :
    lookupAgg "npm:lodash"
        (aggregate_dependencies
          [("r1", [⟨"lodash", "1.0", "npm", none, false⟩]),
            ("r2", [⟨"lodash", "2.0", "npm", none, false⟩])]) =
      some ⟨"lodash", "lodash", "npm", insert "2.0" {"1.0"}, ["r1", "r2"], none⟩ ∧
    lookupAgg "npm:lodash"
        (aggregate_dependencies
          [("r2", [⟨"lodash", "2.0", "npm", none, false⟩]),
            ("r1", [⟨"lodash", "1.0", "npm", none, false⟩])]) =
      some ⟨"lodash", "lodash", "npm", insert "1.0" {"2.0"}, ["r2", "r1"], none⟩ ∧
    (insert "2.0" {"1.0"} : Finset String) = insert "1.0" {"2.0"} ∧
    (⟨"lodash", "lodash", "npm", insert "2.0" {"1.0"}, ["r1", "r2"], none⟩ :
      AggEntry).usageCount =
      (⟨"lodash", "lodash", "npm", insert "1.0" {"2.0"}, ["r2", "r1"], none⟩ :
        AggEntry).usageCount := by
  have h1 : lookupAgg "npm:lodash"
      (aggregate_dependencies
        [("r1", [⟨"lodash", "1.0", "npm", none, false⟩]),
          ("r2", [⟨"lodash", "2.0", "npm", none, false⟩])]) =
      some ⟨"lodash", "lodash", "npm", insert "2.0" {"1.0"}, ["r1", "r2"], none⟩ := rfl
  have h2 : lookupAgg "npm:lodash"
      (aggregate_dependencies
        [("r2", [⟨"lodash", "2.0", "npm", none, false⟩]),
          ("r1", [⟨"lodash", "1.0", "npm", none, false⟩])]) =
      some ⟨"lodash", "lodash", "npm", insert "1.0" {"2.0"}, ["r2", "r1"], none⟩ := rfl
  have h := (aggregation_commutative
    [("r1", [⟨"lodash", "1.0", "npm", none, false⟩]),
      ("r2", [⟨"lodash", "2.0", "npm", none, false⟩])]
    [("r2", [⟨"lodash", "2.0", "npm", none, false⟩]),
      ("r1", [⟨"lodash", "1.0", "npm", none, false⟩])]
    (List.Perm.swap _ _ _) "npm:lodash").2 _ _ h1 h2
  exact ⟨h1, h2, h.1, h.2.2⟩

/-- Witness for C8: the pypi occurrences `Foo_Bar` and `foo-bar` normalize
to the same name, share the key `pypi:foo-bar`, and both versions collapse
into the single record stored under it. -/
theorem canonical_identity_unique_witness :
    normalize_package_name ⟨"Foo_Bar", "1.0", "pypi", none, false⟩ =
      normalize_package_name ⟨"foo-bar", "2.0", "pypi", none, false⟩ ∧
    keyOf ⟨"Foo_Bar", "1.0", "pypi", none, false⟩ =
      keyOf ⟨"foo-bar", "2.0", "pypi", none, false⟩ ∧
    lookupAgg (keyOf ⟨"Foo_Bar", "1.0", "pypi", none, false⟩)
        (aggregate_dependencies
          [("r1", [⟨"Foo_Bar", "1.0", "pypi", none, false⟩]),
            ("r2", [⟨"foo-bar", "2.0", "pypi", none, false⟩])]) =
      some ⟨"Foo_Bar", "foo-bar", "pypi", insert "2.0" {"1.0"}, ["r1", "r2"], none⟩ ∧
    ("1.0" ∈ (insert "2.0" {"1.0"} : Finset String) ∧
      "2.0" ∈ (insert "2.0" {"1.0"} : Finset String)) := by
  have hnorm := canonical_identity_unique.2.2
    ⟨"Foo_Bar", "1.0", "pypi", none, false⟩ ⟨"foo-bar", "2.0", "pypi", none, false⟩
    rfl rfl (by decide) (by decide)
  have hkey := (canonical_identity_unique.2.1
    [("r1", [⟨"Foo_Bar", "1.0", "pypi", none, false⟩]),
      ("r2", [⟨"foo-bar", "2.0", "pypi", none, false⟩])]
    "r1" "r2" [⟨"Foo_Bar", "1.0", "pypi", none, false⟩]
    [⟨"foo-bar", "2.0", "pypi", none, false⟩]
    ⟨"Foo_Bar", "1.0", "pypi", none, false⟩ ⟨"foo-bar", "2.0", "pypi", none, false⟩
    (List.Mem.head _) (List.Mem.head _)
    (List.Mem.tail _ (List.Mem.head _)) (List.Mem.head _) rfl hnorm).1
  exact ⟨hnorm, hkey, rfl, by decide, by decide⟩
